import Mathlib

/-!
Shallow embedding of the dyad store (src/unnamed/part_001, the TypeScript
source of `Store`, together with the two built variants concatenated in
src/dyad.js).

JavaScript objects used as string-keyed maps are embedded as association
lists in insertion order: property assignment updates an existing entry in
place or appends a fresh one at the end, `delete` removes the entry, and
`Object.keys` is the list of first components.  `undefined` is `Option.none`.
JavaScript identity comparison (`!==`) on stored values is embedded as
(decidable) equality on an abstract value type `V`: two distinct composite
objects are two distinct elements of `V`.

The single-threaded event loop is made explicit: the synchronous part of a
scheduling turn is a list of `set` calls, and the microtask continuations
that `set` registers with `Promise.resolve().then(...)` are a FIFO `pending`
queue drained at the start of the next turn (`runTurn`).  Notifications
delivered to subscribers (`super.emit`) are recorded in an `events` log.
-/

section AssocList

variable {K V : Type} [DecidableEq K]

/-- `obj[key]`: first (and only, for lists built by `assocInsert`) binding. -/
def assocLookup : List (K × V) → K → Option V
  | [], _ => none
  | (k, v) :: rest, key => if k = key then some v else assocLookup rest key

/-- `obj[key] = val`: update an existing binding in place (JavaScript keeps
the original insertion position) or append a fresh binding at the end. -/
def assocInsert : List (K × V) → K → V → List (K × V)
  | [], key, val => [(key, val)]
  | (k, v) :: rest, key, val =>
    if k = key then (k, val) :: rest else (k, v) :: assocInsert rest key val

/-- `delete obj[key]`. -/
def assocErase : List (K × V) → K → List (K × V)
  | [], _ => []
  | (k, v) :: rest, key => if k = key then rest else (k, v) :: assocErase rest key

theorem assocLookup_insert (m : List (K × V)) (k : K) (v : V) :
    assocLookup (assocInsert m k v) k = some v := by
  induction m with
  | nil => simp [assocInsert, assocLookup]
  | cons hd tl ih =>
    by_cases h : hd.1 = k
    · simp [assocInsert, assocLookup, h]
    · simp [assocInsert, assocLookup, h, ih]

theorem assocLookup_insert_ne (m : List (K × V)) (k k' : K) (v : V) (h : k ≠ k') :
    assocLookup (assocInsert m k v) k' = assocLookup m k' := by
  induction m with
  | nil => simp [assocInsert, assocLookup, h]
  | cons hd tl ih =>
    by_cases hh : hd.1 = k
    · simp [assocInsert, assocLookup, hh, h]
    · simp only [assocInsert, hh, if_false, assocLookup]
      by_cases hk : hd.1 = k'
      · simp [hk]
      · simp [hk, ih]

theorem assocInsert_insert (m : List (K × V)) (k : K) (a b : V) :
    assocInsert (assocInsert m k a) k b = assocInsert m k b := by
  induction m with
  | nil => simp [assocInsert]
  | cons hd tl ih =>
    by_cases h : hd.1 = k
    · simp [assocInsert, h]
    · simp [assocInsert, h, ih]

theorem assocErase_insert (m : List (K × V)) (k : K) (v : V)
    (h : assocLookup m k = none) : assocErase (assocInsert m k v) k = m := by
  induction m with
  | nil => simp [assocInsert, assocErase]
  | cons hd tl ih =>
    by_cases hh : hd.1 = k
    · simp [assocLookup, hh] at h
    · simp only [assocLookup, hh, if_false] at h
      simp [assocInsert, assocErase, hh, ih h]

end AssocList

section StoreDefs

variable {K V : Type} [DecidableEq K] [DecidableEq V]

/-- `EditValue`: the second argument of `set` is either a literal next value
or a function of the previous value; `Except.error` is the function raising. -/
inductive EditValue (V : Type) where
  | value : V → EditValue V
  | fn : (Option V → Except String V) → EditValue V

/-- The synchronous result of a `set` call: either the deferred handle was
queued for the next turn, or `set` returned an already-rejected promise. -/
inductive SetOutcome where
  | queued : SetOutcome
  | rejected : String → SetOutcome
deriving DecidableEq

/-- What a reducer that calls `dispatch` and catches observes. -/
inductive DObs where
  | sawResolved : DObs
  | sawRejected : String → DObs
  | sawThrown : String → DObs
  | sawOutOfFuel : DObs
deriving DecidableEq

/-- Embedding of a dispatched JavaScript value: a primitive (anything with
`typeof x !== 'object'`, or `null`), or an object with its prototype chain
(immediate prototype first; `[]` is a null-prototype object) and its own
string-valued fields. -/
inductive ActionVal where
  | prim : String → ActionVal
  | obj : List String → List (String × String) → ActionVal
deriving DecidableEq

/-- `isPlainObject` (src/unnamed/part_001 lines 278-295): `x` must be a
non-null object; a `null` immediate prototype passes; otherwise the loop
walks the chain to its topmost prototype and requires `getPrototypeOf(x)`
to be that topmost prototype, i.e. the chain above `x` has exactly one
element. -/
def isPlainObject : ActionVal → Bool
  | .prim _ => false
  | .obj protoChain _ =>
    match protoChain with
    | [] => true
    | _ :: rest => rest.isEmpty

/-- `'type' in nextAction` (own fields; a plain object's prototypes carry no
`type` property). -/
def hasTypeField : ActionVal → Bool
  | .prim _ => false
  | .obj _ fields => (assocLookup fields "type").isSome

/-- `nextAction.type`, read after `hasTypeField` has been checked. -/
def actionType : ActionVal → String
  | .prim _ => ""
  | .obj _ fields => (assocLookup fields "type").getD ""

/-- Result of `dispatch` / of the `call` chain: a promise that resolved, a
promise that rejected, a synchronous exception escaping the call, or fuel
exhaustion (an artifact of embedding general recursion). -/
inductive DResult where
  | resolved : ActionVal → DResult
  | rejected : String → DResult
  | thrown : String → DResult
  | outOfFuel : DResult
deriving DecidableEq

/-- Reducer bodies are embedded as command lists: call `set`, raise, or call
`dispatch` (catching whatever comes back). -/
inductive RCmd (K V : Type) where
  | rset : K → EditValue V → RCmd K V
  | rraise : String → RCmd K V
  | rdispatch : ActionVal → RCmd K V

/-- A registered reducer `(get, set, action) => ...`: given the action, the
commands it performs (reads of `get` are folded into `EditValue.fn`). -/
def ReducerProg (K V : Type) : Type := ActionVal → List (RCmd K V)

/-- Middleware bodies, embedded as the shapes the chain semantics
distinguishes: call `next` once passing a transformed action and return its
result; return a value without calling `next`; throw; or call `next` twice
(with the untransformed action) and return the second result. -/
inductive MWare where
  | passNext : (ActionVal → ActionVal) → MWare
  | shortCircuit : (ActionVal → ActionVal) → MWare
  | raises : String → MWare
  | doubleNext : MWare

/-- The fields of `Store` (src/unnamed/part_001 lines 29-39), plus the
explicit event-loop and observation bookkeeping: `pending` is the FIFO queue
of microtask continuations registered by `set`, `events` logs the
notifications delivered to subscribers, and `log` records what reducers that
called `dispatch` observed. -/
structure StoreState (K V : Type) where
  model : List (K × V)
  prevValueByKey : List (K × Option V)
  emittingByKey : List (K × Bool)
  middleware : List MWare
  reducersByType : List (String × List (ReducerProg K V))
  isDispatching : Bool
  pending : List K
  events : List (K × Option V)
  log : List DObs

def reducersCantDispatchMsg : String := "Reducers can’t dispatch actions"

def nextCalledMoreThanOnceMsg : String := "`next()` called more than once"

def actionNotPlainObjectMsg : String := "`action` is not a plain object"

def actionNoTypePropertyMsg : String := "`action` doesn’t include a `type` property"

/-- The source interpolates the offending key into this message. -/
def cantEmitMsg : String := "Can’t emit key without setting it"

/-- `get = (key) => this._model[key]`. -/
def Store.get (st : StoreState K V) (key : K) : Option V :=
  assocLookup st.model key

/-- `keys()`: `Object.keys(this._model)`, i.e. the keys in insertion order. -/
def Store.keys (st : StoreState K V) : List K :=
  st.model.map Prod.fst

/-- `emit(key, nextValue)` (src/unnamed/part_001 lines 137-143): refuse
unless `_emittingByKey[key]` is set; otherwise notify subscribers
(`super.emit`), logged in `events`. -/
def Store.emit (st : StoreState K V) (key : K) (nextValue : Option V) :
    Except String (StoreState K V) :=
  if ((assocLookup st.emittingByKey key).getD false) = false then
    .error cantEmitMsg
  else
    .ok {st with events := st.events ++ [(key, nextValue)]}

/-- The synchronous part of `set(key, edit)` (src/unnamed/part_001 lines
221-264): snapshot `prevValueByKey[key]` on the first call of the turn,
assign `model[key]` to the computed value, and queue the continuation; if
`edit` is a function and raises, return a rejected promise instead (the
snapshot has already been taken, the model assignment has not happened, and
no continuation is queued). -/
def Store.set (st : StoreState K V) (key : K) (edit : EditValue V) :
    StoreState K V × SetOutcome :=
  let value := assocLookup st.model key
  let st1 :=
    if (assocLookup st.prevValueByKey key).isSome then st
    else {st with prevValueByKey := assocInsert st.prevValueByKey key value}
  match edit with
  | .value v =>
    ({st1 with model := assocInsert st1.model key v,
               pending := st1.pending ++ [key]}, .queued)
  | .fn f =>
    match f value with
    | .ok v =>
      ({st1 with model := assocInsert st1.model key v,
                 pending := st1.pending ++ [key]}, .queued)
    | .error e => (st1, .rejected e)

/-- What a queued `set` continuation resolves to at drain time. -/
inductive DrainRes (V : Type) where
  | resolvedWith : Option V → DrainRes V
  | rejectedWith : String → DrainRes V
deriving DecidableEq

/-- One queued continuation (the `Promise.resolve().then(...)` body of `set`,
src/unnamed/part_001 lines 238-260): read the current `model[key]`; if the
turn's snapshot is still present, clear it and, when the value changed, arm
`_emittingByKey[key]`, emit, and disarm in a `finally`. -/
def drainOne (st : StoreState K V) (key : K) : StoreState K V × DrainRes V :=
  let nextValue := assocLookup st.model key
  match assocLookup st.prevValueByKey key with
  | some prevValue =>
    let st1 := {st with prevValueByKey := assocErase st.prevValueByKey key}
    if nextValue ≠ prevValue then
      let st2 := {st1 with emittingByKey := assocInsert st1.emittingByKey key true}
      match Store.emit st2 key nextValue with
      | .ok st3 =>
        ({st3 with emittingByKey := assocInsert st3.emittingByKey key false},
         .resolvedWith nextValue)
      | .error e =>
        ({st2 with emittingByKey := assocInsert st2.emittingByKey key false},
         .rejectedWith e)
    else (st1, .resolvedWith nextValue)
  | none => (st, .resolvedWith nextValue)

/-- Drain a queue of continuations in FIFO order. -/
def drainList : StoreState K V → List K → StoreState K V × List (DrainRes V)
  | st, [] => (st, [])
  | st, k :: rest =>
    let p := drainOne st k
    let q := drainList p.1 rest
    (q.1, p.2 :: q.2)

/-- The synchronous phase of a turn: a sequence of `set` calls. -/
def runSets : StoreState K V → List (K × EditValue V) →
    StoreState K V × List SetOutcome
  | st, [] => (st, [])
  | st, (k, e) :: rest =>
    let p := Store.set st k e
    let q := runSets p.1 rest
    (q.1, p.2 :: q.2)

/-- One scheduling turn of `set` calls followed by the microtask drain of the
continuations those calls queued. -/
def runTurn (st : StoreState K V) (calls : List (K × EditValue V)) :
    StoreState K V × List SetOutcome × List (DrainRes V) :=
  let p := runSets st calls
  let q := drainList {p.1 with pending := []} p.1.pending
  (q.1, p.2, q.2)

/-- How a reducer that called `dispatch` and caught the outcome records it. -/
def observe : DResult → DObs
  | .resolved _ => .sawResolved
  | .rejected e => .sawRejected e
  | .thrown e => .sawThrown e
  | .outOfFuel => .sawOutOfFuel

/-- Run one reducer body.  `disp` is the `dispatch` capability the reducer
can (mis)use; the result it observes is appended to `log`.  A raise aborts
the body and propagates (`some e`).  The promise a `set` call returns is
dropped, as reducers in the source do. -/
def runCmds (disp : StoreState K V → ActionVal → StoreState K V × DResult) :
    StoreState K V → List (RCmd K V) → StoreState K V × Option String
  | st, [] => (st, none)
  | st, c :: rest =>
    match c with
    | .rset k e =>
      let p := Store.set st k e
      runCmds disp p.1 rest
    | .rraise e => (st, some e)
    | .rdispatch a =>
      let p := disp st a
      runCmds disp {p.1 with log := p.1.log ++ [observe p.2]} rest

/-- `reducers.forEach((reducer) => { try { this._isDispatching = true;
reducer(...) } finally { this._isDispatching = false } })`
(src/unnamed/part_001 lines 90-97): the flag brackets each reducer and is
reset even when the reducer raises, in which case the exception propagates
and the remaining reducers never run. -/
def runReducers (disp : StoreState K V → ActionVal → StoreState K V × DResult) :
    StoreState K V → List (List (RCmd K V)) → StoreState K V × Option String
  | st, [] => (st, none)
  | st, r :: rest =>
    let p := runCmds disp {st with isDispatching := true} r
    let st2 := {p.1 with isDispatching := false}
    match p.2 with
    | some e => (st2, some e)
    | none => runReducers disp st2 rest

/-- `Promise.resolve(nextMiddleware(...))` inside `try/catch`: a synchronous
throw escaping the middleware invocation becomes a rejected promise; promise
results pass through. -/
def promiseResolve : DResult → DResult
  | .thrown e => .rejected e
  | r => r

/-- The inner `call(nextIndex, nextAction)` closure of `dispatch`
(src/unnamed/part_001 lines 69-108).  The mutable `index` of the source is
threaded explicitly (middle component of the result); the remaining suffix
`middleware.drop nextIndex` of the chain stands in for indexing
`middleware[nextIndex]`.  The guard `nextIndex <= index` rejects a `next`
capability invoked for a position the chain has already passed; it is
checked first on every entry (it is written once in the source and here once
per list shape).  At the end of the chain the terminal step validates the
action, runs the reducers, and resolves with the action it received.  The
`next` capability handed to a middleware is `() => call(nextIndex + 1,
nextAction)`: it takes no parameter, so whatever transformed action the
middleware passes to it is dropped and `nextAction` is forwarded
unchanged. -/
def call (disp : StoreState K V → ActionVal → StoreState K V × DResult) :
    List MWare → Nat → ActionVal → Int → StoreState K V →
    StoreState K V × Int × DResult
  | [], nextIndex, nextAction, index, st =>
    if (nextIndex : Int) ≤ index then
      (st, index, .rejected nextCalledMoreThanOnceMsg)
    else if ¬ isPlainObject nextAction then
      (st, (nextIndex : Int), .rejected actionNotPlainObjectMsg)
    else if ¬ hasTypeField nextAction then
      (st, (nextIndex : Int), .rejected actionNoTypePropertyMsg)
    else
      let reducers := (assocLookup st.reducersByType (actionType nextAction)).getD []
      let p := runReducers disp st (reducers.map (fun r => r nextAction))
      match p.2 with
      | some e => (p.1, (nextIndex : Int), .thrown e)
      | none => (p.1, (nextIndex : Int), .resolved nextAction)
  | mw :: rest, nextIndex, nextAction, index, st =>
    if (nextIndex : Int) ≤ index then
      (st, index, .rejected nextCalledMoreThanOnceMsg)
    else
      match mw with
      | .passNext _transform =>
        -- the middleware computes `transform nextAction` and passes it to
        -- `next`, whose closure ignores the argument
        let p := call disp rest (nextIndex + 1) nextAction (nextIndex : Int) st
        (p.1, p.2.1, promiseResolve p.2.2)
      | .shortCircuit result =>
        (st, (nextIndex : Int), .resolved (result nextAction))
      | .raises e =>
        -- the throw is caught by the `try` around the middleware invocation
        (st, (nextIndex : Int), .rejected e)
      | .doubleNext =>
        let p := call disp rest (nextIndex + 1) nextAction (nextIndex : Int) st
        match p.2.2 with
        | .thrown e =>
          -- a synchronous throw out of the first `next()` aborts the
          -- middleware before its second call and rejects at this level
          (p.1, p.2.1, .rejected e)
        | _ =>
          let q := call disp rest (nextIndex + 1) nextAction p.2.1 p.1
          (q.1, q.2.1, promiseResolve q.2.2)

/-- `dispatch(action)` (src/unnamed/part_001 lines 59-109): throw
synchronously when called while a reducer is running, otherwise start the
chain at index 0 with the mutable `index` at `-1`.  The `fuel` parameter
only bounds the nesting depth of reëntrant `dispatch` calls made by
reducers; the reëntrancy check precedes it. -/
def dispatch : Nat → StoreState K V → ActionVal → StoreState K V × DResult
  | 0, st, _action =>
    if st.isDispatching then (st, .thrown reducersCantDispatchMsg)
    else (st, .outOfFuel)
  | fuel + 1, st, action =>
    if st.isDispatching then (st, .thrown reducersCantDispatchMsg)
    else
      let p := call (dispatch fuel) st.middleware 0 action (-1) st
      (p.1, p.2.2)

/-- `initialize(model?)` (src/unnamed/part_001 lines 168-180): reset every
field and remove all listeners, then seed the model.  Continuations already
queued in the event loop cannot be unscheduled (`pending` stays), but the
cleared `prevValueByKey` makes them no-ops; past notifications remain in the
`events` history. -/
def initializeStore (st : StoreState K V) (seed : Option (List (K × V))) :
    StoreState K V :=
  let st1 : StoreState K V :=
    { model := [], prevValueByKey := [], emittingByKey := [], middleware := [],
      reducersByType := [], isDispatching := false,
      pending := st.pending, events := st.events, log := st.log }
  match seed with
  | none => st1
  | some model =>
    {st1 with model := model.foldl (fun m kv => assocInsert m kv.1 kv.2) []}

/-- The state of a store right after construction (`initialize()` with no
model). -/
def emptyStore : StoreState K V :=
  { model := [], prevValueByKey := [], emittingByKey := [], middleware := [],
    reducersByType := [], isDispatching := false,
    pending := [], events := [], log := [] }

/-- `bind(actions)` (src/unnamed/part_001 lines 118-128): append each
reducer to the list registered for its type. -/
def Store.bind (st : StoreState K V) (actions : List (String × ReducerProg K V)) :
    StoreState K V :=
  actions.foldl
    (fun s ta =>
      {s with reducersByType :=
        (assocInsert s.reducersByType ta.1
          ((assocLookup s.reducersByType ta.1).getD [] ++ [ta.2]))})
    st

/-- `use(middleware)`: append to the chain. -/
def Store.use (st : StoreState K V) (mw : MWare) : StoreState K V :=
  {st with middleware := st.middleware ++ [mw]}

/-- The module scope: a heap of store instances and the module-level `store`
variable (`const store = new Store()`), so that instance identity and
sharing are expressible. -/
structure DyadModule (K V : Type) where
  heap : List (StoreState K V)
  singletonRef : Option Nat

/-- `new Store()` as compiled in src/unnamed/part_001 and the first document
of src/dyad.js (lines 105-110): `if (store) { return store }` — when the
module-level singleton exists the construction returns it; only otherwise is
a fresh store initialized. -/
def Store.construct (m : DyadModule K V) : DyadModule K V × Nat :=
  match m.singletonRef with
  | some i => (m, i)
  | none => ({m with heap := m.heap ++ [emptyStore]}, m.heap.length)

/-- `new Store()` as in the second document of src/dyad.js (lines 279-354):
no singleton check, every construction initializes a fresh store. -/
def Store.constructV2 (m : DyadModule K V) : DyadModule K V × Nat :=
  ({m with heap := m.heap ++ [emptyStore]}, m.heap.length)

/-- Module load for the singleton-returning variant:
`const store = new Store()`. -/
def loadModule : DyadModule K V :=
  let p := Store.construct (⟨[], none⟩ : DyadModule K V)
  {p.1 with singletonRef := some p.2}

/-- Module load for the variant without the singleton check. -/
def loadModuleV2 : DyadModule K V :=
  let p := Store.constructV2 (⟨[], none⟩ : DyadModule K V)
  {p.1 with singletonRef := some p.2}

/-- `getInstance()`: the module-level `store`. -/
def getInstance (m : DyadModule K V) : Option Nat := m.singletonRef

/-- Read an instance off the heap. -/
def DyadModule.getStore (m : DyadModule K V) (i : Nat) : StoreState K V :=
  (m.heap[i]?).getD emptyStore

/-- Apply a store operation to the instance at `i`, in place. -/
def DyadModule.modifyStore (m : DyadModule K V) (i : Nat)
    (f : StoreState K V → StoreState K V) : DyadModule K V :=
  {m with heap := m.heap.set i (f (m.getStore i))}

end StoreDefs

section StoreLemmas

variable {K V : Type} [DecidableEq K] [DecidableEq V]

theorem runSets_same_key (key : K) (vs : List V) :
    ∀ st : StoreState K V, (assocLookup st.prevValueByKey key).isSome →
    runSets st (vs.map fun v => (key, EditValue.value v)) =
      ({st with model := vs.foldl (fun m v => assocInsert m key v) st.model,
                pending := st.pending ++ List.replicate vs.length key},
       List.replicate vs.length SetOutcome.queued) := by
  induction vs with
  | nil => intro st h; simp [runSets]
  | cons v rest ih =>
    intro st h
    simp only [List.map_cons, runSets, Store.set, h, if_pos]
    rw [ih _ (by simpa using h)]
    simp [List.replicate_succ, List.append_assoc]

theorem foldl_assocInsert_last (key : K) (v : V) (vs : List V) (m : List (K × V)) :
    (v :: vs).foldl (fun m w => assocInsert m key w) m
      = assocInsert m key ((v :: vs).getLast (by simp)) := by
  induction vs generalizing v m with
  | nil => simp [List.foldl]
  | cons w ws ih =>
    have h1 : List.foldl (fun m w => assocInsert m key w) m (v :: w :: ws)
        = List.foldl (fun m w => assocInsert m key w) m (w :: ws) := by
      simp only [List.foldl_cons]
      rw [assocInsert_insert]
    rw [h1, ih w m]
    congr 1

theorem drainList_no_snapshot (key : K) (n : Nat) :
    ∀ st : StoreState K V, assocLookup st.prevValueByKey key = none →
    drainList st (List.replicate n key) =
      (st, List.replicate n (DrainRes.resolvedWith (assocLookup st.model key))) := by
  induction n with
  | zero => intro st h; simp [drainList]
  | succ n ih =>
    intro st h
    simp only [List.replicate_succ, drainList, drainOne, h]
    rw [ih st h]

theorem drain_single_snapshot (st : StoreState K V) (key : K) (v0 : Option V) (n : Nat)
    (hprev : st.prevValueByKey = [(key, v0)]) :
    (drainList st (List.replicate (n + 1) key)).1 =
      (if assocLookup st.model key = v0 then {st with prevValueByKey := []}
       else {st with prevValueByKey := [],
                     emittingByKey := assocInsert st.emittingByKey key false,
                     events := st.events ++ [(key, assocLookup st.model key)]}) := by
  simp only [List.replicate_succ, drainList, drainOne, hprev, assocLookup, if_pos rfl,
    assocErase]
  by_cases h : assocLookup st.model key = v0
  · simp only [h, ne_eq, not_true_eq_false, if_neg, if_false, ite_true]
    rw [drainList_no_snapshot key n _ (by simp [assocLookup])]
  · simp only [ne_eq, h, not_false_eq_true, if_true, if_pos, Store.emit,
      assocLookup_insert, Option.getD_some]
    simp only [Bool.true_eq_false, if_neg, if_false]
    rw [drainList_no_snapshot key n _ (by simp [assocLookup]), assocInsert_insert]

/-- C1: all `set(key, v1) … set(key, vN)` calls of one turn coalesce: at the
next turn subscribers of `key` are notified exactly once with `vN` when `vN`
differs from the model's value for `key` at the start of the turn, and not
at all when it is identical.  `events` lists every notification delivered,
so the appended delta is the exact multiset of notifications fired. -/
theorem C1_coalesced_single_notification (s : StoreState K V) (key : K) (vs : List V)
    (hprev : s.prevValueByKey = []) (hpend : s.pending = []) (hvs : vs ≠ []) :
    (runTurn s (vs.map fun v => (key, EditValue.value v))).1.events =
      s.events ++
        (if some (vs.getLast hvs) = assocLookup s.model key then []
         else [(key, some (vs.getLast hvs))]) ∧
    Store.get (runTurn s (vs.map fun v => (key, EditValue.value v))).1 key =
      some (vs.getLast hvs) := by
  obtain ⟨v, rest, rfl⟩ : ∃ v rest, vs = v :: rest := by
    cases vs with
    | nil => exact absurd rfl hvs
    | cons v r => exact ⟨v, r, rfl⟩
  have hsets : runSets s ((v :: rest).map fun w => (key, EditValue.value w)) =
      ({s with model := assocInsert s.model key ((v :: rest).getLast (by simp)),
               prevValueByKey := [(key, assocLookup s.model key)],
               pending := List.replicate (rest.length + 1) key},
       List.replicate (rest.length + 1) SetOutcome.queued) := by
    simp only [List.map_cons, runSets, Store.set, hprev, assocLookup, Option.isSome_none,
      Bool.false_eq_true, if_neg, if_false]
    rw [runSets_same_key key rest _ (by simp [assocLookup])]
    simp only [hpend, List.nil_append, assocInsert]
    rw [show (rest.foldl (fun m w => assocInsert m key w)
          (assocInsert s.model key v)) =
        ((v :: rest).foldl (fun m w => assocInsert m key w) s.model) from rfl,
      foldl_assocInsert_last]
    simp [List.replicate_succ]
  unfold runTurn
  rw [hsets]
  have hdrain := drain_single_snapshot
    ({s with model := assocInsert s.model key ((v :: rest).getLast (by simp)),
             prevValueByKey := [(key, assocLookup s.model key)],
             pending := []})
    key (assocLookup s.model key) rest.length rfl
  simp only [assocLookup_insert] at hdrain
  simp only [hdrain]
  constructor
  · by_cases h : some ((v :: rest).getLast (by simp)) = assocLookup s.model key
    · simp [h]
    · simp [h]
  · by_cases h : some ((v :: rest).getLast (by simp)) = assocLookup s.model key
    · simp [h, Store.get, assocLookup_insert]
    · simp [h, Store.get, assocLookup_insert]

/-- Closed instance of `C1_coalesced_single_notification`: three writes to
`"k"` within one turn, starting from value `0`, notify once with `3`. -/
theorem C1_coalesced_single_notification_witness :
    (({emptyStore with model := [("k", 0)]} : StoreState String Nat).prevValueByKey = []
      ∧ ({emptyStore with model := [("k", 0)]} : StoreState String Nat).pending = []
      ∧ ([1, 2, 3] : List Nat) ≠ []) ∧
    ((runTurn ({emptyStore with model := [("k", 0)]} : StoreState String Nat)
        (([1, 2, 3] : List Nat).map fun v => (("k" : String), EditValue.value v))).1.events =
      ({emptyStore with model := [("k", 0)]} : StoreState String Nat).events ++
        (if some (([1, 2, 3] : List Nat).getLast (by decide)) =
            assocLookup ({emptyStore with model := [("k", 0)]} :
              StoreState String Nat).model "k" then []
         else [("k", some (([1, 2, 3] : List Nat).getLast (by decide)))]) ∧
     Store.get (runTurn ({emptyStore with model := [("k", 0)]} : StoreState String Nat)
        (([1, 2, 3] : List Nat).map fun v => (("k" : String), EditValue.value v))).1 "k" =
      some (([1, 2, 3] : List Nat).getLast (by decide))) :=
  ⟨⟨rfl, rfl, by decide⟩,
   C1_coalesced_single_notification _ "k" [1, 2, 3] rfl rfl (by decide)⟩

/-- C6: when the edit function passed to `set(key, edit)` raises, that call's
deferred handle rejects with the raised error and the model keeps its
pre-call value for `key` (the assignment `model[key] = edit(value)` never
happens); a `set` on a different key in the same turn is queued, applied,
and emitted as usual. -/
theorem C6_edit_failure (s : StoreState K V) (k k2 : K)
    (f : Option V → Except String V) (e : String) (v2 : V)
    (hprev : s.prevValueByKey = []) (hpend : s.pending = [])
    (hf : f (Store.get s k) = Except.error e) (hne : k2 ≠ k) :
    (Store.set s k (EditValue.fn f)).2 = SetOutcome.rejected e ∧
    (Store.set s k (EditValue.fn f)).1.model = s.model ∧
    (runTurn s [(k, EditValue.fn f), (k2, EditValue.value v2)]).2.1 =
      [SetOutcome.rejected e, SetOutcome.queued] ∧
    (runTurn s [(k, EditValue.fn f), (k2, EditValue.value v2)]).1.model =
      assocInsert s.model k2 v2 ∧
    Store.get (runTurn s [(k, EditValue.fn f), (k2, EditValue.value v2)]).1 k =
      Store.get s k ∧
    (runTurn s [(k, EditValue.fn f), (k2, EditValue.value v2)]).1.events =
      s.events ++
        (if some v2 = assocLookup s.model k2 then [] else [(k2, some v2)]) := by
  simp only [Store.get] at hf
  have hset : Store.set s k (EditValue.fn f) =
      ({s with prevValueByKey := [(k, assocLookup s.model k)]},
       SetOutcome.rejected e) := by
    simp only [Store.set, hprev, assocLookup, Option.isSome_none, Bool.false_eq_true,
      if_false, hf, assocInsert]
  have hlook2 : assocLookup ([(k, assocLookup s.model k)] : List (K × Option V)) k2
      = none := by
    simp [assocLookup, Ne.symm hne]
  have hset2 : Store.set ({s with prevValueByKey := [(k, assocLookup s.model k)]}
        : StoreState K V) k2 (EditValue.value v2) =
      ({s with prevValueByKey := [(k, assocLookup s.model k),
                                  (k2, assocLookup s.model k2)],
               model := assocInsert s.model k2 v2,
               pending := [k2]}, SetOutcome.queued) := by
    simp only [Store.set, hlook2, Option.isSome_none, Bool.false_eq_true, if_false,
      assocInsert, Ne.symm hne, if_neg, hpend]
    simp [Ne.symm hne]
  have hsets : runSets s [(k, EditValue.fn f), (k2, EditValue.value v2)] =
      ({s with prevValueByKey := [(k, assocLookup s.model k),
                                  (k2, assocLookup s.model k2)],
               model := assocInsert s.model k2 v2,
               pending := [k2]},
       [SetOutcome.rejected e, SetOutcome.queued]) := by
    simp only [runSets, hset, hset2]
  have hdrainOne : drainOne ({s with
        prevValueByKey := [(k, assocLookup s.model k), (k2, assocLookup s.model k2)],
        model := assocInsert s.model k2 v2, pending := []} : StoreState K V) k2 =
      (if some v2 = assocLookup s.model k2 then
        ({s with prevValueByKey := [(k, assocLookup s.model k)],
                 model := assocInsert s.model k2 v2, pending := []},
         DrainRes.resolvedWith (some v2))
       else
        ({s with prevValueByKey := [(k, assocLookup s.model k)],
                 model := assocInsert s.model k2 v2, pending := [],
                 emittingByKey := assocInsert s.emittingByKey k2 false,
                 events := s.events ++ [(k2, some v2)]},
         DrainRes.resolvedWith (some v2))) := by
    by_cases h : some v2 = assocLookup s.model k2
    · simp [drainOne, assocLookup, assocLookup_insert, assocErase, Ne.symm hne, h]
    · simp [drainOne, assocLookup, assocLookup_insert, assocErase, Ne.symm hne, h,
        Store.emit, assocInsert_insert]
  unfold runTurn
  rw [hsets]
  simp only [drainList]
  rw [hdrainOne]
  refine ⟨by rw [hset], by rw [hset], trivial, ?_, ?_, ?_⟩ <;>
    by_cases h : some v2 = assocLookup s.model k2 <;>
      simp [h, Store.get, assocLookup_insert, assocLookup_insert_ne _ _ _ _ hne]

/-- Closed instance of `C6_edit_failure`: a raising edit on `"k"` rejects
with the error while a sibling `set("x", 7)` in the same turn still emits. -/
theorem C6_edit_failure_witness :
    (({emptyStore with model := [("k", 0)]} : StoreState String Nat).prevValueByKey = []
      ∧ ({emptyStore with model := [("k", 0)]} : StoreState String Nat).pending = []
      ∧ (fun (_ : Option Nat) => (Except.error "boom" : Except String Nat))
          (Store.get ({emptyStore with model := [("k", 0)]} : StoreState String Nat) "k")
          = Except.error "boom"
      ∧ ("x" : String) ≠ "k") ∧
    ((runTurn ({emptyStore with model := [("k", 0)]} : StoreState String Nat)
        [("k", EditValue.fn (fun _ => Except.error "boom")),
         ("x", EditValue.value 7)]).2.1 =
      [SetOutcome.rejected "boom", SetOutcome.queued]) :=
  ⟨⟨rfl, rfl, rfl, by decide⟩,
   (C6_edit_failure ({emptyStore with model := [("k", 0)]} : StoreState String Nat)
      "k" "x" (fun _ => Except.error "boom") "boom" 7 rfl rfl rfl
      (by decide)).2.2.1⟩

theorem assocInsert_keys (m : List (K × V)) (k : K) (v : V) :
    (assocInsert m k v).map Prod.fst =
      if k ∈ m.map Prod.fst then m.map Prod.fst else m.map Prod.fst ++ [k] := by
  induction m with
  | nil => simp [assocInsert]
  | cons hd tl ih =>
    by_cases h : hd.1 = k
    · simp [assocInsert, h]
    · simp only [assocInsert, h, if_false, List.map_cons, ih]
      by_cases hm : k ∈ tl.map Prod.fst
      · simp [hm, Ne.symm h]
      · simp [hm, Ne.symm h]

theorem foldl_seed_keys (seed : List (K × V)) :
    ∀ acc : List (K × V), (∀ x ∈ seed.map Prod.fst, x ∉ acc.map Prod.fst) →
    (seed.map Prod.fst).Nodup →
    (seed.foldl (fun m kv => assocInsert m kv.1 kv.2) acc).map Prod.fst
      = acc.map Prod.fst ++ seed.map Prod.fst := by
  induction seed with
  | nil => intro acc _ _; simp
  | cons hd tl ih =>
    intro acc hdisj hnodup
    have hhd : hd.1 ∉ acc.map Prod.fst := hdisj hd.1 (by simp)
    have hnodup' : hd.1 ∉ tl.map Prod.fst ∧ (tl.map Prod.fst).Nodup :=
      List.nodup_cons.mp hnodup
    simp only [List.foldl_cons]
    rw [ih (assocInsert acc hd.1 hd.2) ?_ hnodup'.2]
    · rw [assocInsert_keys]
      simp [hhd]
    · intro x hx
      rw [assocInsert_keys]
      have hxacc : x ∉ acc.map Prod.fst := hdisj x (by simp [hx])
      have hxhd : x ≠ hd.1 := by
        intro hcontra
        exact hnodup'.1 (hcontra ▸ hx)
      simp [hhd, hxacc, hxhd]

/-- C9: `keys()` is `Object.keys` of the model, i.e. its keys in insertion
order: `initialize` seeds them in the seed's order, and a `set` of a fresh
key appends it at the end while a `set` of an existing key keeps the
original position. -/
theorem C9_keys_insertion_order :
    (∀ (s : StoreState K V) (seed : List (K × V)), (seed.map Prod.fst).Nodup →
       Store.keys (initializeStore s (some seed)) = seed.map Prod.fst)
    ∧ (∀ (s : StoreState K V) (k : K) (v : V),
       Store.keys (Store.set s k (EditValue.value v)).1 =
         if k ∈ Store.keys s then Store.keys s else Store.keys s ++ [k]) := by
  constructor
  · intro s seed hnodup
    simp only [Store.keys, initializeStore]
    rw [foldl_seed_keys seed [] (by simp) hnodup]
    simp
  · intro s k v
    simp only [Store.keys, Store.set]
    by_cases h : (assocLookup s.prevValueByKey k).isSome
    · simp only [h, if_true, if_pos]
      exact assocInsert_keys s.model k v
    · simp only [h, if_false, if_neg, Bool.false_eq_true]
      exact assocInsert_keys s.model k v

/-- Closed instance of `C9_keys_insertion_order`: seeding `a, b` lists keys
in that order; a write to fresh `c` appends it, a write to existing `a`
leaves the order unchanged. -/
theorem C9_keys_insertion_order_witness :
    ((([("a", 1), ("b", 2)] : List (String × Nat)).map Prod.fst).Nodup ∧
     Store.keys (initializeStore (emptyStore : StoreState String Nat)
        (some [("a", 1), ("b", 2)])) =
       ([("a", 1), ("b", 2)] : List (String × Nat)).map Prod.fst) ∧
    (Store.keys (Store.set ({emptyStore with model := [("a", 1), ("b", 2)]}
        : StoreState String Nat) "c" (EditValue.value 3)).1 =
      if "c" ∈ Store.keys ({emptyStore with model := [("a", 1), ("b", 2)]}
          : StoreState String Nat)
      then Store.keys ({emptyStore with model := [("a", 1), ("b", 2)]}
          : StoreState String Nat)
      else Store.keys ({emptyStore with model := [("a", 1), ("b", 2)]}
          : StoreState String Nat) ++ ["c"]) :=
  ⟨⟨by decide, C9_keys_insertion_order.1 emptyStore [("a", 1), ("b", 2)] (by decide)⟩,
   C9_keys_insertion_order.2 _ "c" 3⟩

theorem dispatch_isDispatching (fuel : Nat) (st : StoreState K V) (a : ActionVal)
    (h : st.isDispatching = true) :
    dispatch fuel st a = (st, DResult.thrown reducersCantDispatchMsg) := by
  cases fuel <;> simp [dispatch, h]

theorem set_preserves_control (st : StoreState K V) (k : K) (e : EditValue V) :
    (Store.set st k e).1.isDispatching = st.isDispatching ∧
    (Store.set st k e).1.log = st.log := by
  cases e with
  | value v =>
    by_cases h : (assocLookup st.prevValueByKey k).isSome <;> simp [Store.set, h]
  | fn f =>
    by_cases h : (assocLookup st.prevValueByKey k).isSome <;>
      cases hf : f (assocLookup st.model k) <;> simp [Store.set, h, hf]

theorem runCmds_reentrant (fuel : Nat) (cmds : List (RCmd K V)) :
    ∀ st : StoreState K V, st.isDispatching = true →
    (runCmds (dispatch fuel) st cmds).1.isDispatching = true ∧
    ∃ Δ, (runCmds (dispatch fuel) st cmds).1.log = st.log ++ Δ ∧
      ∀ o ∈ Δ, o = DObs.sawThrown reducersCantDispatchMsg := by
  induction cmds with
  | nil => intro st h; exact ⟨h, [], by simp [runCmds], by simp⟩
  | cons c rest ih =>
    intro st h
    cases c with
    | rset k e =>
      simp only [runCmds]
      have hp := set_preserves_control st k e
      obtain ⟨h1, Δ, hlog, hall⟩ := ih (Store.set st k e).1 (hp.1.trans h)
      exact ⟨h1, Δ, by rw [hlog, hp.2], hall⟩
    | rraise e => exact ⟨h, [], by simp [runCmds], by simp⟩
    | rdispatch a =>
      simp only [runCmds, dispatch_isDispatching fuel st a h]
      obtain ⟨h1, Δ, hlog, hall⟩ :=
        ih {st with log := st.log ++ [observe (DResult.thrown reducersCantDispatchMsg)]} h
      refine ⟨h1, DObs.sawThrown reducersCantDispatchMsg :: Δ, ?_, ?_⟩
      · rw [hlog]; simp [observe]
      · intro o ho
        rcases List.mem_cons.mp ho with h' | h'
        · exact h'
        · exact hall o h'

theorem runReducers_reentrant (fuel : Nat) (rs : List (List (RCmd K V))) :
    ∀ st : StoreState K V, st.isDispatching = false →
    (runReducers (dispatch fuel) st rs).1.isDispatching = false ∧
    ∃ Δ, (runReducers (dispatch fuel) st rs).1.log = st.log ++ Δ ∧
      ∀ o ∈ Δ, o = DObs.sawThrown reducersCantDispatchMsg := by
  induction rs with
  | nil => intro st h; exact ⟨h, [], by simp [runReducers], by simp⟩
  | cons r rest ih =>
    intro st h
    obtain ⟨h1, Δ1, hlog1, hall1⟩ :=
      runCmds_reentrant fuel r {st with isDispatching := true} rfl
    simp only [runReducers]
    cases herr : (runCmds (dispatch fuel) {st with isDispatching := true} r).2 with
    | some e =>
      refine ⟨rfl, Δ1, ?_, hall1⟩
      simpa using hlog1
    | none =>
      obtain ⟨h2, Δ2, hlog2, hall2⟩ :=
        ih {(runCmds (dispatch fuel) {st with isDispatching := true} r).1 with
             isDispatching := false} rfl
      refine ⟨h2, Δ1 ++ Δ2, ?_, ?_⟩
      · rw [hlog2]
        simp only []
        rw [show ({(runCmds (dispatch fuel) {st with isDispatching := true} r).1 with
              isDispatching := false} : StoreState K V).log
            = (runCmds (dispatch fuel) {st with isDispatching := true} r).1.log from rfl,
          hlog1]
        simp [List.append_assoc]
      · intro o ho
        rcases List.mem_append.mp ho with h' | h'
        · exact hall1 o h'
        · exact hall2 o h'

theorem runReducers_cons (disp : StoreState K V → ActionVal → StoreState K V × DResult)
    (st : StoreState K V) (r : List (RCmd K V)) (rest : List (List (RCmd K V))) :
    runReducers disp st (r :: rest) =
      match (runCmds disp {st with isDispatching := true} r).2 with
      | some e => ({(runCmds disp {st with isDispatching := true} r).1 with
                     isDispatching := false}, some e)
      | none => runReducers disp
          {(runCmds disp {st with isDispatching := true} r).1 with
            isDispatching := false} rest := rfl

theorem call_guard_rejects (disp : StoreState K V → ActionVal → StoreState K V × DResult)
    (mws : List MWare) (nextIndex : Nat) (a : ActionVal) (index : Int)
    (st : StoreState K V) (h : (nextIndex : Int) ≤ index) :
    call disp mws nextIndex a index st =
      (st, index, DResult.rejected nextCalledMoreThanOnceMsg) := by
  cases mws <;> simp [call, h]

theorem call_nil_notPlain (disp : StoreState K V → ActionVal → StoreState K V × DResult)
    (nextIndex : Nat) (a : ActionVal) (index : Int) (st : StoreState K V)
    (hidx : ¬ ((nextIndex : Int) ≤ index)) (h : isPlainObject a = false) :
    call disp [] nextIndex a index st =
      (st, (nextIndex : Int), DResult.rejected actionNotPlainObjectMsg) := by
  simp [call, hidx, h]

theorem call_nil_noType (disp : StoreState K V → ActionVal → StoreState K V × DResult)
    (nextIndex : Nat) (a : ActionVal) (index : Int) (st : StoreState K V)
    (hidx : ¬ ((nextIndex : Int) ≤ index)) (h1 : isPlainObject a = true)
    (h2 : hasTypeField a = false) :
    call disp [] nextIndex a index st =
      (st, (nextIndex : Int), DResult.rejected actionNoTypePropertyMsg) := by
  simp [call, hidx, h1, h2]

theorem call_nil_run (disp : StoreState K V → ActionVal → StoreState K V × DResult)
    (nextIndex : Nat) (a : ActionVal) (index : Int) (st : StoreState K V)
    (hidx : ¬ ((nextIndex : Int) ≤ index)) (h1 : isPlainObject a = true)
    (h2 : hasTypeField a = true) :
    call disp [] nextIndex a index st =
      ((runReducers disp st
          (((assocLookup st.reducersByType (actionType a)).getD []).map
            (fun r => r a))).1,
       (nextIndex : Int),
       match (runReducers disp st
          (((assocLookup st.reducersByType (actionType a)).getD []).map
            (fun r => r a))).2 with
       | some e => DResult.thrown e
       | none => DResult.resolved a) := by
  simp only [call, hidx, if_false, h1, h2, not_true_eq_false, if_neg]
  cases herr : (runReducers disp st
      (((assocLookup st.reducersByType (actionType a)).getD []).map
        (fun r => r a))).2 <;> simp [herr]

theorem call_cons_passNext (disp : StoreState K V → ActionVal → StoreState K V × DResult)
    (f : ActionVal → ActionVal) (rest : List MWare) (nextIndex : Nat) (a : ActionVal)
    (index : Int) (st : StoreState K V) (hidx : ¬ ((nextIndex : Int) ≤ index)) :
    call disp (MWare.passNext f :: rest) nextIndex a index st =
      ((call disp rest (nextIndex + 1) a (nextIndex : Int) st).1,
       (call disp rest (nextIndex + 1) a (nextIndex : Int) st).2.1,
       promiseResolve (call disp rest (nextIndex + 1) a (nextIndex : Int) st).2.2) := by
  simp [call, hidx]

theorem call_cons_shortCircuit
    (disp : StoreState K V → ActionVal → StoreState K V × DResult)
    (f : ActionVal → ActionVal) (rest : List MWare) (nextIndex : Nat) (a : ActionVal)
    (index : Int) (st : StoreState K V) (hidx : ¬ ((nextIndex : Int) ≤ index)) :
    call disp (MWare.shortCircuit f :: rest) nextIndex a index st =
      (st, (nextIndex : Int), DResult.resolved (f a)) := by
  simp [call, hidx]

theorem call_cons_raises (disp : StoreState K V → ActionVal → StoreState K V × DResult)
    (e : String) (rest : List MWare) (nextIndex : Nat) (a : ActionVal)
    (index : Int) (st : StoreState K V) (hidx : ¬ ((nextIndex : Int) ≤ index)) :
    call disp (MWare.raises e :: rest) nextIndex a index st =
      (st, (nextIndex : Int), DResult.rejected e) := by
  simp [call, hidx]

theorem call_reentrant (fuel : Nat) (a : ActionVal) (mws : List MWare) :
    ∀ (nextIndex : Nat) (index : Int) (st : StoreState K V),
    st.isDispatching = false →
    (call (dispatch fuel) mws nextIndex a index st).1.isDispatching = false ∧
    ∃ Δ, (call (dispatch fuel) mws nextIndex a index st).1.log = st.log ++ Δ ∧
      ∀ o ∈ Δ, o = DObs.sawThrown reducersCantDispatchMsg := by
  induction mws with
  | nil =>
    intro nextIndex index st h
    by_cases hg : (nextIndex : Int) ≤ index
    · rw [call_guard_rejects (dispatch fuel) [] nextIndex a index st hg]
      exact ⟨h, [], by simp, by simp⟩
    · by_cases h1 : isPlainObject a
      · by_cases h2 : hasTypeField a
        · obtain ⟨hr1, Δ, hlog, hall⟩ := runReducers_reentrant fuel
            (((assocLookup st.reducersByType (actionType a)).getD []).map
              (fun r => r a)) st h
          rw [call_nil_run (dispatch fuel) nextIndex a index st hg h1 h2]
          exact ⟨hr1, Δ, hlog, hall⟩
        · rw [call_nil_noType (dispatch fuel) nextIndex a index st hg h1
            (by simpa using h2)]
          exact ⟨h, [], by simp, by simp⟩
      · rw [call_nil_notPlain (dispatch fuel) nextIndex a index st hg
          (by simpa using h1)]
        exact ⟨h, [], by simp, by simp⟩
  | cons mw rest ih =>
    intro nextIndex index st h
    by_cases hg : (nextIndex : Int) ≤ index
    · rw [call_guard_rejects (dispatch fuel) (mw :: rest) nextIndex a index st hg]
      exact ⟨h, [], by simp, by simp⟩
    · cases mw with
      | passNext f =>
        rw [call_cons_passNext (dispatch fuel) f rest nextIndex a index st hg]
        exact ih (nextIndex + 1) (nextIndex : Int) st h
      | shortCircuit f =>
        rw [call_cons_shortCircuit (dispatch fuel) f rest nextIndex a index st hg]
        exact ⟨h, [], by simp, by simp⟩
      | raises e =>
        rw [call_cons_raises (dispatch fuel) e rest nextIndex a index st hg]
        exact ⟨h, [], by simp, by simp⟩
      | doubleNext =>
        simp only [call, hg, if_false, if_neg]
        obtain ⟨h1, Δ1, hlog1, hall1⟩ := ih (nextIndex + 1) (nextIndex : Int) st h
        cases hfst : (call (dispatch fuel) rest (nextIndex + 1) a (nextIndex : Int)
            st).2.2 with
        | thrown e => exact ⟨h1, Δ1, hlog1, hall1⟩
        | resolved v =>
          obtain ⟨h2, Δ2, hlog2, hall2⟩ := ih (nextIndex + 1)
            (call (dispatch fuel) rest (nextIndex + 1) a (nextIndex : Int) st).2.1
            (call (dispatch fuel) rest (nextIndex + 1) a (nextIndex : Int) st).1 h1
          refine ⟨h2, Δ1 ++ Δ2, ?_, ?_⟩
          · rw [hlog2, hlog1, List.append_assoc]
          · intro o ho
            rcases List.mem_append.mp ho with h' | h'
            · exact hall1 o h'
            · exact hall2 o h'
        | rejected e =>
          obtain ⟨h2, Δ2, hlog2, hall2⟩ := ih (nextIndex + 1)
            (call (dispatch fuel) rest (nextIndex + 1) a (nextIndex : Int) st).2.1
            (call (dispatch fuel) rest (nextIndex + 1) a (nextIndex : Int) st).1 h1
          refine ⟨h2, Δ1 ++ Δ2, ?_, ?_⟩
          · rw [hlog2, hlog1, List.append_assoc]
          · intro o ho
            rcases List.mem_append.mp ho with h' | h'
            · exact hall1 o h'
            · exact hall2 o h'
        | outOfFuel =>
          obtain ⟨h2, Δ2, hlog2, hall2⟩ := ih (nextIndex + 1)
            (call (dispatch fuel) rest (nextIndex + 1) a (nextIndex : Int) st).2.1
            (call (dispatch fuel) rest (nextIndex + 1) a (nextIndex : Int) st).1 h1
          refine ⟨h2, Δ1 ++ Δ2, ?_, ?_⟩
          · rw [hlog2, hlog1, List.append_assoc]
          · intro o ho
            rcases List.mem_append.mp ho with h' | h'
            · exact hall1 o h'
            · exact hall2 o h'

/-- C4: calling `dispatch` while a reducer is running throws the error
`Reducers can’t dispatch actions` synchronously (catchable at the call
site) and changes nothing, no matter the fuel; and on a normal `dispatch`
the flag is false again once the call returns, while every `dispatch` a
reducer attempted during the run — i.e. while the flag was raised for the
reducer's synchronous execution — observed exactly that thrown error (the
entries `dispatch` appended to the observation log). -/
theorem C4_reentrant_dispatch (fuel : Nat) (s : StoreState K V) (a : ActionVal) :
    (s.isDispatching = true →
      dispatch fuel s a = (s, DResult.thrown reducersCantDispatchMsg)) ∧
    (s.isDispatching = false →
      (dispatch fuel s a).1.isDispatching = false ∧
      ∀ o ∈ (dispatch fuel s a).1.log.drop s.log.length,
        o = DObs.sawThrown reducersCantDispatchMsg) := by
  constructor
  · exact dispatch_isDispatching fuel s a
  · intro h
    cases fuel with
    | zero =>
      simp [dispatch, h]
    | succ n =>
      simp only [dispatch, h, Bool.false_eq_true, if_neg, if_false]
      obtain ⟨h1, Δ, hlog, hall⟩ := call_reentrant n a s.middleware 0 (-1) s h
      refine ⟨h1, ?_⟩
      intro o ho
      rw [hlog, List.drop_left] at ho
      exact hall o ho

/-- The action dispatched in the concrete scenarios below. -/
def actT : ActionVal := .obj ["Object.prototype"] [("type", "T")]

/-- A store whose only `T` reducer calls `dispatch` (and catches). -/
def storeC4 : StoreState String Nat :=
  {emptyStore with reducersByType := [("T", [fun _ => [RCmd.rdispatch actT]])]}

/-- Closed instance of `C4_reentrant_dispatch`: the reducer's inner
`dispatch` observed the synchronous `Reducers can’t dispatch actions`
throw, and the flag is back to false after the outer `dispatch`. -/
theorem C4_reentrant_dispatch_witness :
    storeC4.isDispatching = false ∧
    ((dispatch 2 storeC4 actT).1.isDispatching = false ∧
     ∀ o ∈ (dispatch 2 storeC4 actT).1.log.drop storeC4.log.length,
       o = DObs.sawThrown reducersCantDispatchMsg) :=
  ⟨rfl, (C4_reentrant_dispatch 2 storeC4 actT).2 rfl⟩

theorem runReducers_append_none
    (disp : StoreState K V → ActionVal → StoreState K V × DResult)
    (pre l2 : List (List (RCmd K V))) :
    ∀ st : StoreState K V, (runReducers disp st pre).2 = none →
    runReducers disp st (pre ++ l2) = runReducers disp (runReducers disp st pre).1 l2 := by
  induction pre with
  | nil => intro st _; simp [runReducers]
  | cons r rest ih =>
    intro st h
    cases herr : (runCmds disp {st with isDispatching := true} r).2 with
    | some e =>
      rw [runReducers_cons, herr] at h
      simp at h
    | none =>
      rw [runReducers_cons, herr] at h
      rw [List.cons_append]
      simp only [runReducers_cons, herr]
      exact ih _ h

theorem runReducers_stop (disp : StoreState K V → ActionVal → StoreState K V × DResult)
    (st : StoreState K V) (rc : List (RCmd K V)) (post : List (List (RCmd K V)))
    (e : String)
    (h : (runCmds disp {st with isDispatching := true} rc).2 = some e) :
    runReducers disp st (rc :: post) =
      ({(runCmds disp {st with isDispatching := true} rc).1 with
         isDispatching := false}, some e) := by
  simp only [runReducers, h]

/-- C10: with no middleware, when one of the reducers bound to the action's
type raises, the exception escapes `dispatch` synchronously (`DResult.thrown`,
not a rejected promise), the reducers registered after the raising one are
never invoked (running the registry with or without them is one and the
same), and the dispatching flag is false once `dispatch` has returned. -/
theorem C10_reducer_raise_propagates (fuel : Nat) (s : StoreState K V) (a : ActionVal)
    (pre : List (List (RCmd K V))) (rc : List (RCmd K V))
    (post : List (List (RCmd K V))) (e : String)
    (hflag : s.isDispatching = false)
    (hmw : s.middleware = [])
    (hplain : isPlainObject a = true)
    (htype : hasTypeField a = true)
    (hreg : ((assocLookup s.reducersByType (actionType a)).getD []).map (fun r => r a)
      = pre ++ rc :: post)
    (hpre : (runReducers (dispatch fuel) s pre).2 = none)
    (hrc : (runCmds (dispatch fuel)
        {(runReducers (dispatch fuel) s pre).1 with isDispatching := true} rc).2
      = some e) :
    dispatch (fuel + 1) s a =
      ({(runCmds (dispatch fuel)
          {(runReducers (dispatch fuel) s pre).1 with isDispatching := true} rc).1
        with isDispatching := false}, DResult.thrown e) ∧
    (dispatch (fuel + 1) s a).1.isDispatching = false ∧
    runReducers (dispatch fuel) s (pre ++ rc :: post) =
      runReducers (dispatch fuel) s (pre ++ [rc]) := by
  have hrun : runReducers (dispatch fuel) s (pre ++ rc :: post) =
      ({(runCmds (dispatch fuel)
          {(runReducers (dispatch fuel) s pre).1 with isDispatching := true} rc).1
        with isDispatching := false}, some e) := by
    rw [runReducers_append_none (dispatch fuel) pre (rc :: post) s hpre,
      runReducers_stop (dispatch fuel) _ rc post e hrc]
  have hrun2 : runReducers (dispatch fuel) s (pre ++ [rc]) =
      ({(runCmds (dispatch fuel)
          {(runReducers (dispatch fuel) s pre).1 with isDispatching := true} rc).1
        with isDispatching := false}, some e) := by
    rw [runReducers_append_none (dispatch fuel) pre [rc] s hpre,
      runReducers_stop (dispatch fuel) _ rc [] e hrc]
  have hd : dispatch (fuel + 1) s a =
      ({(runCmds (dispatch fuel)
          {(runReducers (dispatch fuel) s pre).1 with isDispatching := true} rc).1
        with isDispatching := false}, DResult.thrown e) := by
    simp only [dispatch, hflag, Bool.false_eq_true, if_neg, if_false, hmw]
    simp only [call, show ¬(((0 : Nat) : Int) ≤ (-1 : Int)) by decide, if_false,
      hplain, htype, not_true_eq_false, if_neg, hreg, hrun]
  exact ⟨hd, by rw [hd], hrun.trans hrun2.symm⟩

/-- A store binding two reducers for `T`: the first raises after a write,
the second writes another key. -/
def storeC10 : StoreState String Nat :=
  {emptyStore with reducersByType :=
    [("T", [fun _ => [RCmd.rset "x" (EditValue.value 1), RCmd.rraise "bang"],
            fun _ => [RCmd.rset "y" (EditValue.value 2)]])]}

/-- Closed instance of `C10_reducer_raise_propagates` on `storeC10`. -/
theorem C10_reducer_raise_propagates_witness :
    (storeC10.isDispatching = false ∧
     storeC10.middleware = [] ∧
     isPlainObject actT = true ∧
     hasTypeField actT = true ∧
     ((assocLookup storeC10.reducersByType (actionType actT)).getD []).map
        (fun r => r actT)
       = [] ++ [RCmd.rset "x" (EditValue.value 1), RCmd.rraise "bang"] ::
           [[RCmd.rset "y" (EditValue.value 2)]] ∧
     (runReducers (dispatch 0) storeC10 []).2 = none ∧
     (runCmds (dispatch 0)
        {(runReducers (dispatch 0) storeC10 []).1 with isDispatching := true}
        [RCmd.rset "x" (EditValue.value 1), RCmd.rraise "bang"]).2 = some "bang") ∧
    (dispatch 1 storeC10 actT =
      ({(runCmds (dispatch 0)
          {(runReducers (dispatch 0) storeC10 []).1 with isDispatching := true}
          [RCmd.rset "x" (EditValue.value 1), RCmd.rraise "bang"]).1
        with isDispatching := false}, DResult.thrown "bang") ∧
     (dispatch 1 storeC10 actT).1.isDispatching = false ∧
     runReducers (dispatch 0) storeC10
        ([] ++ [RCmd.rset "x" (EditValue.value 1), RCmd.rraise "bang"] ::
          [[RCmd.rset "y" (EditValue.value 2)]]) =
       runReducers (dispatch 0) storeC10
        ([] ++ [[RCmd.rset "x" (EditValue.value 1), RCmd.rraise "bang"]])) :=
  ⟨⟨rfl, rfl, rfl, rfl, rfl, rfl, rfl⟩,
   C10_reducer_raise_propagates 0 storeC10 actT []
     [RCmd.rset "x" (EditValue.value 1), RCmd.rraise "bang"]
     [[RCmd.rset "y" (EditValue.value 2)]] "bang" rfl rfl rfl rfl rfl rfl rfl⟩

theorem call_passNext_chain (disp : StoreState K V → ActionVal → StoreState K V × DResult)
    (a : ActionVal) :
    ∀ mws : List MWare, (∀ mw ∈ mws, ∃ f, mw = MWare.passNext f) →
    ∀ (nextIndex : Nat) (index : Int) (st : StoreState K V),
    index < (nextIndex : Int) →
    promiseResolve ((call disp [] 0 a (-1) st).2.2) = (call disp [] 0 a (-1) st).2.2 →
    (call disp mws nextIndex a index st).1 = (call disp [] 0 a (-1) st).1 ∧
    (call disp mws nextIndex a index st).2.2 = (call disp [] 0 a (-1) st).2.2 := by
  intro mws
  induction mws with
  | nil =>
    intro _ nextIndex index st hidx _
    by_cases h1 : isPlainObject a
    · by_cases h2 : hasTypeField a
      · rw [call_nil_run disp nextIndex a index st (not_le.mpr hidx) h1 h2,
          call_nil_run disp 0 a (-1) st (by decide) h1 h2]
        exact ⟨rfl, rfl⟩
      · rw [call_nil_noType disp nextIndex a index st (not_le.mpr hidx) h1
            (by simpa using h2),
          call_nil_noType disp 0 a (-1) st (by decide) h1 (by simpa using h2)]
        exact ⟨rfl, rfl⟩
    · rw [call_nil_notPlain disp nextIndex a index st (not_le.mpr hidx)
          (by simpa using h1),
        call_nil_notPlain disp 0 a (-1) st (by decide) (by simpa using h1)]
      exact ⟨rfl, rfl⟩
  | cons mw rest ih =>
    intro hmw nextIndex index st hidx hr
    obtain ⟨f, rfl⟩ := hmw mw (List.mem_cons_self mw rest)
    have hmw' : ∀ m ∈ rest, ∃ f, m = MWare.passNext f :=
      fun m hm => hmw m (List.mem_cons_of_mem _ hm)
    rw [call_cons_passNext disp f rest nextIndex a index st (not_le.mpr hidx)]
    have hstep : ((nextIndex : Int)) < (((nextIndex + 1 : Nat)) : Int) := by
      exact_mod_cast Nat.lt_succ_self nextIndex
    obtain ⟨ha, hb⟩ := ih hmw' (nextIndex + 1) (nextIndex : Int) st hstep hr
    exact ⟨ha, by rw [hb, hr]⟩

/-- C2: when no middleware short-circuits — each one invokes its `next`
capability exactly once — `dispatch` resolves with the very action value it
was given, whatever transformed actions the middleware passed to `next`
(the chain's terminal step receives and resolves the original, because the
`next` closures drop their arguments); assuming the action passes the
terminal validation and no reducer raises. -/
theorem C2_dispatch_resolves_original_action (fuel : Nat) (s : StoreState K V)
    (a : ActionVal)
    (hflag : s.isDispatching = false)
    (hmw : ∀ mw ∈ s.middleware, ∃ f, mw = MWare.passNext f)
    (hplain : isPlainObject a = true) (htype : hasTypeField a = true)
    (hred : (runReducers (dispatch fuel) s
        (((assocLookup s.reducersByType (actionType a)).getD []).map
          (fun r => r a))).2 = none) :
    (dispatch (fuel + 1) s a).2 = DResult.resolved a := by
  have hterm : call (dispatch fuel) [] 0 a (-1) s =
      ((runReducers (dispatch fuel) s
          (((assocLookup s.reducersByType (actionType a)).getD []).map
            (fun r => r a))).1,
       ((0 : Nat) : Int), DResult.resolved a) := by
    rw [call_nil_run (dispatch fuel) 0 a (-1) s (by decide) hplain htype, hred]
  obtain ⟨h1, h2⟩ := call_passNext_chain (dispatch fuel) a s.middleware hmw 0 (-1) s
    (by decide) (by rw [hterm]; rfl)
  simp only [dispatch, hflag, Bool.false_eq_true, if_neg, if_false]
  rw [h2, hterm]

/-- A store with one pass-through middleware and one `T` reducer. -/
def storePass : StoreState String Nat :=
  { emptyStore with
    middleware := [MWare.passNext (fun x => x)],
    reducersByType := [("T", [fun _ => [RCmd.rset "k" (EditValue.value 5)]])] }

/-- Closed instance of `C2_dispatch_resolves_original_action` on
`storePass` and the action `actT`. -/
theorem C2_dispatch_resolves_original_action_witness :
    (storePass.isDispatching = false ∧
     (∀ mw ∈ storePass.middleware, ∃ f, mw = MWare.passNext f) ∧
     isPlainObject actT = true ∧ hasTypeField actT = true ∧
     (runReducers (dispatch 0) storePass
        (((assocLookup storePass.reducersByType (actionType actT)).getD []).map
          (fun r => r actT))).2 = none) ∧
    (dispatch 1 storePass actT).2 = DResult.resolved actT :=
  ⟨⟨rfl, fun mw hmw => ⟨fun x => x, by simpa [storePass] using hmw⟩, rfl, rfl, rfl⟩,
   C2_dispatch_resolves_original_action 0 storePass actT rfl
     (fun mw hmw => ⟨fun x => x, by simpa [storePass] using hmw⟩) rfl rfl rfl⟩

/-- C5: with a chain of pass-through middleware (the empty chain included),
dispatching a value that is not a plain object — a class or `Date` instance,
a primitive — rejects with `· action · is not a plain object`, and
dispatching a plain record without a `type` field rejects with `· action ·
doesn’t include a · type · property`; either way the resulting state is the
starting state itself: no reducer ran and the model is unchanged. -/
theorem C5_action_validation (fuel : Nat) (s : StoreState K V) (a : ActionVal)
    (hflag : s.isDispatching = false)
    (hmw : ∀ mw ∈ s.middleware, ∃ f, mw = MWare.passNext f) :
    (isPlainObject a = false →
      dispatch (fuel + 1) s a = (s, DResult.rejected actionNotPlainObjectMsg)) ∧
    (isPlainObject a = true → hasTypeField a = false →
      dispatch (fuel + 1) s a = (s, DResult.rejected actionNoTypePropertyMsg)) := by
  constructor
  · intro h
    have hterm := call_nil_notPlain (dispatch fuel) 0 a (-1) s (by decide) h
    obtain ⟨h1, h2⟩ := call_passNext_chain (dispatch fuel) a s.middleware hmw 0 (-1) s
      (by decide) (by rw [hterm]; rfl)
    simp only [dispatch, hflag, Bool.false_eq_true, if_neg, if_false]
    rw [show (call (dispatch fuel) s.middleware 0 a (-1) s).1 = s by rw [h1, hterm],
      show (call (dispatch fuel) s.middleware 0 a (-1) s).2.2 =
          DResult.rejected actionNotPlainObjectMsg by rw [h2, hterm]]
  · intro h1' h2'
    have hterm := call_nil_noType (dispatch fuel) 0 a (-1) s (by decide) h1' h2'
    obtain ⟨h1, h2⟩ := call_passNext_chain (dispatch fuel) a s.middleware hmw 0 (-1) s
      (by decide) (by rw [hterm]; rfl)
    simp only [dispatch, hflag, Bool.false_eq_true, if_neg, if_false]
    rw [show (call (dispatch fuel) s.middleware 0 a (-1) s).1 = s by rw [h1, hterm],
      show (call (dispatch fuel) s.middleware 0 a (-1) s).2.2 =
          DResult.rejected actionNoTypePropertyMsg by rw [h2, hterm]]

/-- A `Date` instance: its prototype chain is `Date.prototype` then
`Object.prototype`, so it is not a plain object. -/
def dateAction : ActionVal := .obj ["Date.prototype", "Object.prototype"] [("x", "1")]

/-- A plain record without the `type` discriminator. -/
def noTypeAction : ActionVal := .obj ["Object.prototype"] [("foo", "1")]

/-- Closed instance of `C5_action_validation` on `storePass`: a `Date`
instance and a `type`-less record are both rejected, leaving the store as
it was. -/
theorem C5_action_validation_witness :
    (storePass.isDispatching = false ∧
     (∀ mw ∈ storePass.middleware, ∃ f, mw = MWare.passNext f) ∧
     isPlainObject dateAction = false ∧
     isPlainObject noTypeAction = true ∧ hasTypeField noTypeAction = false) ∧
    dispatch 1 storePass dateAction =
      (storePass, DResult.rejected actionNotPlainObjectMsg) ∧
    dispatch 1 storePass noTypeAction =
      (storePass, DResult.rejected actionNoTypePropertyMsg) :=
  ⟨⟨rfl, fun mw hmw => ⟨fun x => x, by simpa [storePass] using hmw⟩, rfl, rfl, rfl⟩,
   (C5_action_validation 0 storePass dateAction rfl
      (fun mw hmw => ⟨fun x => x, by simpa [storePass] using hmw⟩)).1 rfl,
   (C5_action_validation 0 storePass noTypeAction rfl
      (fun mw hmw => ⟨fun x => x, by simpa [storePass] using hmw⟩)).2 rfl rfl⟩

theorem call_index_ge (disp : StoreState K V → ActionVal → StoreState K V × DResult)
    (a : ActionVal) :
    ∀ (mws : List MWare) (nextIndex : Nat) (index : Int) (st : StoreState K V),
    index < (nextIndex : Int) →
    (nextIndex : Int) ≤ (call disp mws nextIndex a index st).2.1 := by
  intro mws
  induction mws with
  | nil =>
    intro nextIndex index st hidx
    by_cases h1 : isPlainObject a
    · by_cases h2 : hasTypeField a
      · rw [call_nil_run disp nextIndex a index st (not_le.mpr hidx) h1 h2]
      · rw [call_nil_noType disp nextIndex a index st (not_le.mpr hidx) h1
          (by simpa using h2)]
    · rw [call_nil_notPlain disp nextIndex a index st (not_le.mpr hidx)
        (by simpa using h1)]
  | cons mw rest ih =>
    intro nextIndex index st hidx
    have hstep : ((nextIndex : Int)) < (((nextIndex + 1 : Nat)) : Int) := by
      exact_mod_cast Nat.lt_succ_self nextIndex
    have hle : ((nextIndex : Int)) ≤ (((nextIndex + 1 : Nat)) : Int) := le_of_lt hstep
    cases mw with
    | passNext f =>
      rw [call_cons_passNext disp f rest nextIndex a index st (not_le.mpr hidx)]
      exact le_trans hle (ih (nextIndex + 1) (nextIndex : Int) st hstep)
    | shortCircuit f =>
      rw [call_cons_shortCircuit disp f rest nextIndex a index st (not_le.mpr hidx)]
    | raises e =>
      rw [call_cons_raises disp e rest nextIndex a index st (not_le.mpr hidx)]
    | doubleNext =>
      have hfst := ih (nextIndex + 1) (nextIndex : Int) st hstep
      simp only [call, not_le.mpr hidx, if_false, if_neg]
      cases hres : (call disp rest (nextIndex + 1) a (nextIndex : Int) st).2.2 with
      | thrown e =>
        simp only [hres]
        exact le_trans hle hfst
      | resolved v =>
        simp only [hres]
        rw [call_guard_rejects disp rest (nextIndex + 1) a _ _ hfst]
        exact le_trans hle hfst
      | rejected e =>
        simp only [hres]
        rw [call_guard_rejects disp rest (nextIndex + 1) a _ _ hfst]
        exact le_trans hle hfst
      | outOfFuel =>
        simp only [hres]
        rw [call_guard_rejects disp rest (nextIndex + 1) a _ _ hfst]
        exact le_trans hle hfst

/-- C7: the chain tracks the highest index it has reached (the threaded
`index`, which `call` only ever advances); invoking a `next` capability a
second time for a position the chain has already passed returns a rejected
promise carrying `· next() · called more than once`, leaving the state as
the first invocation left it. -/
theorem C7_double_next_rejected
    (disp : StoreState K V → ActionVal → StoreState K V × DResult)
    (mws : List MWare) (nextIndex : Nat) (a : ActionVal) (index : Int)
    (st : StoreState K V) (hidx : index < (nextIndex : Int)) :
    call disp mws nextIndex a
        (call disp mws nextIndex a index st).2.1
        (call disp mws nextIndex a index st).1 =
      ((call disp mws nextIndex a index st).1,
       (call disp mws nextIndex a index st).2.1,
       DResult.rejected nextCalledMoreThanOnceMsg) :=
  call_guard_rejects disp mws nextIndex a _ _
    (call_index_ge disp a mws nextIndex index st hidx)

/-- Closed instance of `C7_double_next_rejected`: re-invoking the terminal
position after a completed dispatch of `actT` on the empty chain rejects. -/
theorem C7_double_next_rejected_witness :
    ((-1 : Int) < ((0 : Nat) : Int)) ∧
    call (dispatch 0) ([] : List MWare) 0 actT
        (call (dispatch 0) ([] : List MWare) 0 actT (-1)
          (emptyStore : StoreState String Nat)).2.1
        (call (dispatch 0) ([] : List MWare) 0 actT (-1)
          (emptyStore : StoreState String Nat)).1 =
      ((call (dispatch 0) ([] : List MWare) 0 actT (-1)
          (emptyStore : StoreState String Nat)).1,
       (call (dispatch 0) ([] : List MWare) 0 actT (-1)
          (emptyStore : StoreState String Nat)).2.1,
       DResult.rejected nextCalledMoreThanOnceMsg) :=
  ⟨by decide,
   C7_double_next_rejected (dispatch 0) [] 0 actT (-1) emptyStore (by decide)⟩

/-- The transformed action a middleware passes to `next` in the C3
scenario. -/
def transActionU : ActionVal := .obj ["Object.prototype"] [("type", "U")]

/-- A chain whose first middleware passes a transformed action to `next`
and whose second middleware resolves with exactly the action it receives. -/
def storeC3 : StoreState String Nat :=
  {emptyStore with middleware :=
    [MWare.passNext (fun _ => transActionU), MWare.shortCircuit (fun x => x)]}

/-- C3 counterexample: the middleware at index 0 passes the transformed
action `transActionU` to `next`, and the middleware at index 1 resolves
with the action it receives as its current action; were the claim true the
dispatch would resolve with `transActionU`, but it resolves with the
original `actT`, which differs — so index 1 did not receive the transformed
action. -/
theorem C3_counterexample_transform_dropped :
    (dispatch 1 storeC3 actT).2 = DResult.resolved actT ∧ actT ≠ transActionU :=
  ⟨rfl, by decide⟩

theorem call_passNext_probe
    (disp : StoreState K V → ActionVal → StoreState K V × DResult) (a : ActionVal) :
    ∀ (transforms : List (ActionVal → ActionVal)) (nextIndex : Nat) (index : Int)
      (st : StoreState K V), index < (nextIndex : Int) →
    (call disp (transforms.map MWare.passNext ++ [MWare.shortCircuit (fun x => x)])
        nextIndex a index st).1 = st ∧
    (call disp (transforms.map MWare.passNext ++ [MWare.shortCircuit (fun x => x)])
        nextIndex a index st).2.2 = DResult.resolved a := by
  intro transforms
  induction transforms with
  | nil =>
    intro nextIndex index st hidx
    rw [List.map_nil, List.nil_append,
      call_cons_shortCircuit disp (fun x => x) [] nextIndex a index st
        (not_le.mpr hidx)]
    exact ⟨rfl, rfl⟩
  | cons f fs ih =>
    intro nextIndex index st hidx
    have hstep : ((nextIndex : Int)) < (((nextIndex + 1 : Nat)) : Int) := by
      exact_mod_cast Nat.lt_succ_self nextIndex
    rw [List.map_cons, List.cons_append,
      call_cons_passNext disp f _ nextIndex a index st (not_le.mpr hidx)]
    obtain ⟨ha, hb⟩ := ih (nextIndex + 1) (nextIndex : Int) st hstep
    exact ⟨ha, by rw [hb]; rfl⟩

/-- C3 amended: the middleware at index `i + 1` receives the same action
middleware `i` received — the action originally dispatched — because the
`next` capability takes no parameter and drops whatever transformed action
is passed to it: after any chain of transforming pass-through middleware, a
probe that resolves with its current action resolves with the original. -/
theorem C3_amended_next_drops_transformed (fuel : Nat) (s : StoreState K V)
    (a : ActionVal) (transforms : List (ActionVal → ActionVal))
    (hflag : s.isDispatching = false)
    (hmw : s.middleware =
      transforms.map MWare.passNext ++ [MWare.shortCircuit (fun x => x)]) :
    (dispatch (fuel + 1) s a).2 = DResult.resolved a := by
  simp only [dispatch, hflag, Bool.false_eq_true, if_neg, if_false, hmw]
  exact (call_passNext_probe (dispatch fuel) a transforms 0 (-1) s (by decide)).2

/-- Closed instance of `C3_amended_next_drops_transformed` on `storeC3`. -/
theorem C3_amended_next_drops_transformed_witness :
    (storeC3.isDispatching = false ∧
     storeC3.middleware =
       ([fun _ => transActionU] : List (ActionVal → ActionVal)).map MWare.passNext ++
         [MWare.shortCircuit (fun x => x)]) ∧
    (dispatch 1 storeC3 actT).2 = DResult.resolved actT :=
  ⟨⟨rfl, rfl⟩,
   C3_amended_next_drops_transformed 0 storeC3 actT [fun _ => transActionU] rfl rfl⟩

/-- The module after load, for the constructor variant without the
singleton check. -/
def dyadC8 : DyadModule String Nat := loadModuleV2

/-- First explicit construction after load. -/
def c8first : DyadModule String Nat × Nat := Store.constructV2 dyadC8

/-- Second explicit construction. -/
def c8second : DyadModule String Nat × Nat := Store.constructV2 c8first.1

/-- The module after `set("x", 5)` on the first constructed instance. -/
def c8afterSet : DyadModule String Nat :=
  c8second.1.modifyStore c8first.2 (fun st => (Store.set st "x" (EditValue.value 5)).1)

/-- The module after `initialize({y: 7})` on the first constructed instance. -/
def c8afterInit : DyadModule String Nat :=
  c8second.1.modifyStore c8first.2 (fun st => initializeStore st (some [("y", 7)]))

/-- The module after `set("z", 9)` on the second constructed instance. -/
def c8afterSet2 : DyadModule String Nat :=
  c8second.1.modifyStore c8second.2 (fun st => (Store.set st "z" (EditValue.value 9)).1)

/-- C8: with the `src/dyad.js` constructor variant that has no singleton
short-circuit, two constructions yield distinct instances with disjoint
state: `set` or `initialize` on one changes nothing observable through
`get` or `keys` on the other. -/
theorem C8_independent_instances :
    c8first.2 ≠ c8second.2 ∧
    Store.get (c8afterSet.getStore c8first.2) "x" = some 5 ∧
    Store.get (c8afterSet.getStore c8second.2) "x" = none ∧
    Store.keys (c8afterSet.getStore c8second.2) = [] ∧
    Store.get (c8afterInit.getStore c8first.2) "y" = some 7 ∧
    Store.get (c8afterInit.getStore c8second.2) "y" = none ∧
    Store.keys (c8afterInit.getStore c8second.2) = [] ∧
    Store.get (c8afterSet2.getStore c8second.2) "z" = some 9 ∧
    Store.get (c8afterSet2.getStore c8first.2) "z" = none ∧
    Store.keys (c8afterSet2.getStore c8first.2) = [] :=
  ⟨by decide, rfl, rfl, rfl, rfl, rfl, rfl, rfl, rfl, rfl⟩

end StoreLemmas
